import Mathlib

/-!
Verification of the CSV cleaner tool (src/index.js) against its
natural-language specification.

The JavaScript source is shallowly embedded: strings are `String`, and the
JS string primitives used by the tool (`split`, `trim`, the quote-stripping
regex replace) are modelled by structurally recursive functions over
`String.data` so that every definition evaluates inside the kernel.  The
hand-rolled character-by-character CSV scanner of `extractTokenAddresses` /
`extractWalletAddresses` is the recursive function `scanLine` below.
-/

namespace Cleaner

/-- Model of JS `String.prototype.split(sep)` for a one-character separator,
accumulating the current piece: splitting the empty string yields `[""]`,
and every separator occurrence starts a new piece. -/
def splitOnCharAux (sep : Char) : List Char → List Char → List String
  | [], cur => [String.mk cur]
  | c :: rest, cur =>
      if c = sep then String.mk cur :: splitOnCharAux sep rest []
      else splitOnCharAux sep rest (cur ++ [c])

/-- JS `s.split(sep)` for a one-character separator. -/
def splitOnChar (sep : Char) (s : String) : List String :=
  splitOnCharAux sep s.data []

/-- The characters stripped by JS `String.prototype.trim`: ASCII whitespace
plus no-break space and the BOM (the Unicode space separators other than
U+00A0 do not occur in the inputs modelled here). -/
def isJsSpace (c : Char) : Bool :=
  c == ' ' || c == '\t' || c == '\n' || c == '\r' || c == '\x0b' ||
  c == '\x0c' || c == '\u00a0' || c == '\ufeff'

/-- Model of JS `String.prototype.trim`. -/
def jsTrim (s : String) : String :=
  String.mk (((s.data.dropWhile isJsSpace).reverse.dropWhile isJsSpace).reverse)

/-- A JS regex `.` without the `s` flag matches any character except a line
terminator. -/
def dotMatch (c : Char) : Bool :=
  c != '\n' && c != '\r' && c != '\u2028' && c != '\u2029'

/-- Model of `currentField.replace(/^"(.*)"$/, '$1')` from src/index.js:
the regex matches exactly when the string has length at least 2, starts and
ends with a double quote, and the part between the quotes contains no line
terminator; on a match the two surrounding quotes are stripped, otherwise
the string is unchanged. -/
def cleanQuotes (s : String) : String :=
  let cs := s.data
  if 2 ≤ cs.length && cs.headD 'x' == '"' && cs.getLastD 'x' == '"'
      && ((cs.drop 1).dropLast).all dotMatch
  then String.mk ((cs.drop 1).dropLast)
  else s

/-- Model of the emission step of the scanner (src/index.js lines 156-161 and
172-178): clean the accumulated field and push it onto the output array
unless the cleaned value is empty. -/
def pushClean (cur : List Char) (acc : List String) : List String :=
  let clean := cleanQuotes (String.mk cur)
  if clean = "" then acc else acc ++ [clean]

/-- Model of the per-line scanning loop of `extractTokenAddresses`
(src/index.js lines 130-178).  Arguments mirror the JS locals: the
remaining characters of the line, `inQuotes`, `currentField`, `fieldIndex`,
and the shared output array `acc` (`tokenAddresses`).  The cases are, in
the priority order of the JS `if` chain: backslash-quote escape, doubled
quote inside quotes, quote toggle, field separator outside quotes, and the
default append.  At end of line the last field is emitted when its index
matches the target. -/
def scanLine (target : Nat) :
    List Char → Bool → List Char → Nat → List String → List String
  | [], _, cur, i, acc =>
      if i = target then pushClean cur acc else acc
  | '\\' :: '"' :: rest, q, cur, i, acc =>
      scanLine target rest q (cur ++ ['"']) i acc
  | '"' :: '"' :: rest, true, cur, i, acc =>
      scanLine target rest true (cur ++ ['"']) i acc
  | '"' :: rest, q, cur, i, acc =>
      scanLine target rest (!q) cur i acc
  | ',' :: rest, false, cur, i, acc =>
      scanLine target rest false [] (i + 1)
        (if i = target then pushClean cur acc else acc)
  | c :: rest, q, cur, i, acc =>
      scanLine target rest q (cur ++ [c]) i acc

/-- The same character scan, but splitting the whole line into its ordered
list of fields instead of emitting a single target index.  This is the
specification-side tokenizer of spec section 4.1 ("parses one CSV line into
ordered field values"), used to state the refinement theorem for the
extraction pipeline. -/
def tokenizeLine : List Char → Bool → List Char → List String
  | [], _, cur => [String.mk cur]
  | '\\' :: '"' :: rest, q, cur => tokenizeLine rest q (cur ++ ['"'])
  | '"' :: '"' :: rest, true, cur => tokenizeLine rest true (cur ++ ['"'])
  | '"' :: rest, q, cur => tokenizeLine rest (!q) cur
  | ',' :: rest, false, cur => String.mk cur :: tokenizeLine rest false []
  | c :: rest, q, cur => tokenizeLine rest q (cur ++ [c])

/-- The value a line contributes for field index `k`: the cleaned field at
index `k` of the tokenization, dropped when missing or empty (spec 4.1:
"Empty resulting values (after stripping) are dropped, not emitted"). -/
def emitOf (fields : List String) (k : Nat) : List String :=
  match fields[k]? with
  | none => []
  | some f => if cleanQuotes f = "" then [] else [cleanQuotes f]

/-- Model of `extractTokenAddresses` (src/index.js lines 103-190) on the
file content: split into lines, locate the `token_address` column in the
naively comma-split first line (header cells trimmed for matching), then
scan every non-empty trimmed data line, accumulating into the shared
output array.  `lines.headD ""` models `lines[0]`; the split never returns
an empty list, so the default is never used. -/
def extractTokenAddresses (data : String) : Except String (List String) :=
  let lines := splitOnChar '\n' data
  let header := splitOnChar ',' (lines.headD "")
  match header.findIdx? (fun col => jsTrim col == "token_address") with
  | none => Except.error "token_address column not found in CSV"
  | some tokenAddressIndex =>
      Except.ok ((lines.drop 1).foldl
        (fun tokenAddresses line =>
          let l := jsTrim line
          if l = "" then tokenAddresses
          else scanLine tokenAddressIndex l.data false [] 0 tokenAddresses)
        [])

/-- Specification-side column extraction (spec sections 4.1, 4.2 and the
testable property of section 8): across the non-empty trimmed data lines,
in order, the target column's value of each line, quote-stripped, empties
dropped. -/
def columnValues (idx : Nat) (data : String) : List String :=
  ((splitOnChar '\n' data).drop 1).flatMap (fun line =>
    let l := jsTrim line
    if l = "" then [] else emitOf (tokenizeLine l.data false []) idx)

/-- Fuel-bounded version of `scanLine`: one unit of fuel per iteration of
the JS `for` loop (whose counter `j` is bounded by the line length).
Running out of fuel with characters left returns `none`; the theorem for
the totality claim shows fuel equal to the line length always suffices. -/
def scanLineFuel (target : Nat) :
    Nat → List Char → Bool → List Char → Nat → List String →
      Option (List String)
  | _, [], _, cur, i, acc =>
      some (if i = target then pushClean cur acc else acc)
  | 0, _ :: _, _, _, _, _ => none
  | fuel + 1, '\\' :: '"' :: rest, q, cur, i, acc =>
      scanLineFuel target fuel rest q (cur ++ ['"']) i acc
  | fuel + 1, '"' :: '"' :: rest, true, cur, i, acc =>
      scanLineFuel target fuel rest true (cur ++ ['"']) i acc
  | fuel + 1, '"' :: rest, q, cur, i, acc =>
      scanLineFuel target fuel rest (!q) cur i acc
  | fuel + 1, ',' :: rest, false, cur, i, acc =>
      scanLineFuel target fuel rest false [] (i + 1)
        (if i = target then pushClean cur acc else acc)
  | fuel + 1, c :: rest, q, cur, i, acc =>
      scanLineFuel target fuel rest q (cur ++ [c]) i acc

/-- The accumulation state of `processTokens` (src/index.js lines 215-217):
the ordered output `allWalletAddresses`, the JS `Set` `addressSet`
(modelled as the list of its elements, membership by `contains`), and
`duplicateCount`. -/
structure DedupState where
  all : List String
  seen : List String
  dups : Nat
deriving DecidableEq

/-- Initial accumulation state of a `processTokens` run. -/
def initDedupState : DedupState := ⟨[], [], 0⟩

/-- One iteration of the duplicate-removal loop of `processTokens`
(src/index.js lines 227-234): a value already in the set only bumps the
duplicate counter; a new value is added to the set and appended to the
output. -/
def dedupStep (s : DedupState) (address : String) : DedupState :=
  if s.seen.contains address then
    { s with dups := s.dups + 1 }
  else
    { all := s.all ++ [address], seen := address :: s.seen, dups := s.dups }

/-- The whole accumulation phase of `processTokens` over the per-file
extracted address lists, in file order. -/
def processAll (files : List (List String)) : DedupState :=
  files.foldl (fun s addresses => addresses.foldl dedupStep s) initDedupState

/-- Specification-side first-seen deduplication (spec 4.4: "first occurrence
of a value is kept in output order; every later repeat is dropped"),
parameterised by the values already seen. -/
def firstSeen : List String → List String → List String
  | [], _ => []
  | x :: xs, seen =>
      if seen.contains x then firstSeen xs seen
      else x :: firstSeen xs (x :: seen)

/-- The per-file loop of `processTokens` (src/index.js lines 219-240) with
its error handling: each entry is the result of `extractWalletAddresses`
for one file, and an error aborts the whole run (`rl.close(); return;`)
before anything is written, which the `none` result models. -/
def runDedupFrom :
    List (Except String (List String)) → DedupState → Option DedupState
  | [], s => some s
  | Except.error _ :: _, _ => none
  | Except.ok addresses :: rest, s =>
      runDedupFrom rest (addresses.foldl dedupStep s)

/-- A whole `processTokens` accumulation run over per-file extraction
results. -/
def runDedup (files : List (Except String (List String))) :
    Option DedupState :=
  runDedupFrom files initDedupState

/-- The chunk size constant of `processTokens` (src/index.js line 264). -/
def chunkSize : Nat := 39000

/-- The chunking loop of `processTokens` (src/index.js lines 265-269):
`slice(i, i + chunkSize)` for `i = 0, chunkSize, 2 * chunkSize, ...`
while `i` is below the length. -/
def buildChunks (l : List String) : List (List String) :=
  if l = [] then []
  else l.take chunkSize :: buildChunks (l.drop chunkSize)
termination_by l.length
decreasing_by
  simp only [List.length_drop]
  have : 0 < l.length := List.length_pos.mpr (by assumption)
  simp [chunkSize]
  omega

/-- Character-level worker for `replaceFirst`: walk the string left to
right and replace the first position where the pattern is a prefix. -/
def replaceFirstAux (pat repl : List Char) : List Char → List Char
  | [] => []
  | c :: rest =>
      if pat.isPrefixOf (c :: rest) then repl ++ (c :: rest).drop pat.length
      else c :: replaceFirstAux pat repl rest

/-- Model of JS `String.prototype.replace` with a plain string pattern:
only the first (leftmost) occurrence is replaced. -/
def replaceFirst (s pat repl : String) : String :=
  String.mk (replaceFirstAux pat.data repl.data s.data)

/-- The chunk file naming of `processTokens` (src/index.js lines 276-278):
with more than one chunk, chunk `i` (zero-based) is named by dropping the
first `.txt` of the user file name and appending an underscore, the
one-based index, and `.txt`; with a single chunk the user file name is
used unchanged. -/
def chunkFileName (fileName : String) (numChunks i : Nat) : String :=
  if numChunks > 1 then
    replaceFirst fileName ".txt" "" ++ "_" ++ toString (i + 1) ++ ".txt"
  else fileName

/-- The trim-and-keep filter applied to every contributed line in
`mergeCSVFiles` (src/index.js lines 447-450): the line is trimmed and
dropped when the result is empty. -/
def keepLine (l : String) : Option String :=
  if jsTrim l = "" then none else some (jsTrim l)

/-- The data lines a file contributes once merged data exists: lines of
index at least 1, trimmed, empties dropped. -/
def dataLines (content : String) : List String :=
  ((splitOnChar '\n' content).drop 1).filterMap keepLine

/-- One iteration of the merge loop of `mergeCSVFiles` (src/index.js lines
436-451): a file contributes its lines starting at index 0 when no line
has been accumulated yet and at index 1 otherwise, each trimmed and
dropped when empty.  (The `headers` / `headerLine` variables of the source
are set from the first file but never reach the output, so they are not
part of the state.) -/
def mergeStep (mergedData : List String) (content : String) : List String :=
  let lines := splitOnChar '\n' content
  let startLine := if mergedData.length = 0 then 0 else 1
  mergedData ++ (lines.drop startLine).filterMap keepLine

/-- The merged line list of a whole `mergeCSVFiles` run over the file
contents in directory-listing order; the written output joins these lines
with a newline. -/
def mergeCSV (files : List String) : List String :=
  files.foldl mergeStep []

/-- The merge loop including its per-file error handling (src/index.js
lines 429-455): a file whose read fails is logged and skipped, the run
continues. -/
def mergeReadStep (mergedData : List String) (r : Except String String) :
    List String :=
  match r with
  | Except.error _ => mergedData
  | Except.ok content => mergeStep mergedData content

/-- A whole `mergeCSVFiles` accumulation run over per-file read results. -/
def runMerge (files : List (Except String String)) : List String :=
  files.foldl mergeReadStep []

/-- A mutating filesystem operation. -/
inductive FSOp where
  | write (path : String) (content : String)
  | unlink (path : String)
deriving DecidableEq

/-- Whether an operation is a write. -/
def FSOp.isWrite : FSOp → Bool
  | .write _ _ => true
  | .unlink _ => false

/-- The mutating filesystem operations performed by one `processWallets`
run (src/index.js lines 53-100), in order, as a function of the existence
of `tokens/tokens.csv`, its content, and the file name the user enters at
the prompt.  Reads (`existsSync`, `readFile`) mutate nothing and are not
recorded; `path.join` is modelled by string concatenation. -/
def processWalletsOps (csvExists : Bool) (data : String)
    (fileName : String) : List FSOp :=
  if csvExists = false then []
  else
    match extractTokenAddresses data with
    | Except.error _ => []
    | Except.ok tokenAddresses =>
      if tokenAddresses.length = 0 then []
      else
        let name1 := if fileName = "" then "token_addresses" else fileName
        let name2 := if name1.endsWith ".txt" then name1 else name1 ++ ".txt"
        [FSOp.write ("tokens/" ++ name2)
          (String.intercalate "\n" tokenAddresses)]

theorem emitOf_cons_succ (f : String) (T : List String) (k : Nat) :
    emitOf (f :: T) (k + 1) = emitOf T k := by
  simp [emitOf]

theorem emitOf_cons_zero (f : String) (T : List String) :
    emitOf (f :: T) 0 =
      (if cleanQuotes f = "" then [] else [cleanQuotes f]) := by
  simp [emitOf]

/-- Bridge between the implementation scanner and the specification
tokenizer: scanning a line for field index `target`, having already passed
`i` separators, appends to the output array exactly the cleaned value of
field `target - i` of the tokenization of the rest of the line (nothing
when the field is missing, empty after cleaning, or already passed). -/
theorem scanLine_eq_emit (target : Nat) (cs : List Char) (q : Bool)
    (cur : List Char) (i : Nat) (acc : List String) :
    scanLine target cs q cur i acc =
      acc ++ (if i ≤ target then emitOf (tokenizeLine cs q cur) (target - i)
              else []) := by
  induction cs, q, cur, i, acc using scanLine.induct target with
  | case1 q cur acc =>
      simp only [scanLine, tokenizeLine, Nat.le_refl, if_pos, Nat.sub_self,
        emitOf_cons_zero, pushClean]
      split <;> simp_all [emitOf]
  | case2 q cur i acc h =>
      simp only [scanLine, if_neg h]
      by_cases hle : i ≤ target
      · obtain ⟨k, hk⟩ : ∃ k, target - i = k + 1 :=
          ⟨target - i - 1, by omega⟩
        simp [tokenizeLine, hle, hk, emitOf]
      · simp [hle]
  | case3 rest q cur i acc ih =>
      rw [scanLine, tokenizeLine]
      exact ih
  | case4 rest cur i acc ih =>
      rw [scanLine, tokenizeLine]
      exact ih
  | case5 rest q cur i acc h ih =>
      rw [scanLine.eq_4 target q cur i acc rest h, tokenizeLine.eq_4 q cur rest h]
      exact ih
  | case6 rest cur i acc ih =>
      rw [scanLine, tokenizeLine]
      by_cases hi : i = target
      · subst hi
        have hn : ¬ i + 1 ≤ i := by omega
        simp only [hn, if_neg, if_pos, Nat.le_refl, Nat.sub_self] at ih ⊢
        rw [ih]
        simp [emitOf_cons_zero, pushClean]
        split <;> simp
      · by_cases hle : i ≤ target
        · have hlt : i < target := by omega
          have h1 : i + 1 ≤ target := hlt
          obtain ⟨k, hk⟩ : ∃ k, target - i = k + 1 :=
            ⟨target - i - 1, by omega⟩
          have hk' : target - (i + 1) = k := by omega
          rw [ih]
          simp [hi, hle, h1, hk, hk', emitOf_cons_succ]
        · have h1 : ¬ i + 1 ≤ target := by omega
          rw [ih]
          simp [hi, hle, h1]
  | case7 c rest q cur i acc h1 h2 h3 h4 ih =>
      rw [scanLine.eq_6 target q cur i acc c rest h1 h3 h2 h4,
        tokenizeLine.eq_6 q cur c rest h1 h3 h2 h4]
      exact ih

/-- The extraction fold over the data lines appends, line by line, the
specification-side contribution of each non-empty trimmed line. -/
theorem extract_foldl_eq_flatMap (idx : Nat) (lines : List String)
    (acc : List String) :
    lines.foldl (fun tokenAddresses line =>
        let l := jsTrim line
        if l = "" then tokenAddresses
        else scanLine idx l.data false [] 0 tokenAddresses) acc
      = acc ++ lines.flatMap (fun line =>
          let l := jsTrim line
          if l = "" then []
          else emitOf (tokenizeLine l.data false []) idx) := by
  induction lines generalizing acc with
  | nil => simp
  | cons x xs ih =>
      by_cases hx : jsTrim x = ""
      · simp only [List.foldl_cons, List.flatMap_cons, hx, ite_true, if_pos]
        rw [ih]
        simp
      · simp only [List.foldl_cons, List.flatMap_cons, hx, ite_false, if_neg]
        rw [ih, scanLine_eq_emit]
        simp

/-- C1: for every CSV text whose first line contains the `token_address`
column name (naive comma split, header cells trimmed for matching), the
extraction pipeline yields exactly the ordered sequence of that column's
values across the non-empty data lines, surrounding quotes stripped
(values that are empty after stripping are dropped, per spec 4.1); in
particular the input with header `id,token_address` and rows `1,"0xABC"`
and `2,0xDEF` yields `["0xABC", "0xDEF"]`. -/
theorem extraction_yields_column_values :
    (∀ (data : String) (idx : Nat),
      (splitOnChar ',' ((splitOnChar '\n' data).headD "")).findIdx?
          (fun col => jsTrim col == "token_address") = some idx →
      extractTokenAddresses data = Except.ok (columnValues idx data)) ∧
    extractTokenAddresses "id,token_address\n1,\"0xABC\"\n2,0xDEF"
      = Except.ok ["0xABC", "0xDEF"] := by
  constructor
  · intro data idx h
    simp only [extractTokenAddresses, h]
    rw [extract_foldl_eq_flatMap]
    simp [columnValues]
  · rfl

/-- Witness for C1 at the concrete scenario input. -/
theorem extraction_yields_column_values_witness :
    extractTokenAddresses "id,token_address\n1,\"0xABC\"\n2,0xDEF"
      = Except.ok (columnValues 1 "id,token_address\n1,\"0xABC\"\n2,0xDEF") :=
  extraction_yields_column_values.1 _ 1 (by decide)

/-- C2: in the tokenizer, a backslash immediately followed by a double
quote appends one literal quote character to the current field and
consumes both characters, for every input line and scanner state;
consequently the column value `a\"b`, containing an escaped quote,
round-trips to the literal `a"b` in the extracted output. -/
theorem escaped_quote_roundtrip :
    (∀ (target : Nat) (rest : List Char) (q : Bool) (cur : List Char)
        (i : Nat) (acc : List String),
      scanLine target ('\\' :: '"' :: rest) q cur i acc
        = scanLine target rest q (cur ++ ['"']) i acc) ∧
    extractTokenAddresses "token_address\na\\\"b" = Except.ok ["a\"b"] :=
  ⟨fun _ _ _ _ _ _ => rfl, by rfl⟩

/-- C10: the per-line scan is total.  With fuel equal to the line length
(one unit per iteration of the JS loop, whose counter is bounded by the
line length) the fuel-bounded scanner never runs out of fuel and returns
exactly the result of the total scan, for every line, every scanner state
and every target column index; the embedding uses no partial operation,
so the per-line warning branch of src/index.js lines 179-181 is
unreachable. -/
theorem scan_total (target : Nat) (fuel : Nat) (cs : List Char)
    (q : Bool) (cur : List Char) (i : Nat) (acc : List String)
    (h : cs.length ≤ fuel) :
    scanLineFuel target fuel cs q cur i acc
      = some (scanLine target cs q cur i acc) := by
  induction fuel, cs, q, cur, i, acc using scanLineFuel.induct target with
  | case1 fuel q cur i acc => rw [scanLineFuel.eq_1]; rfl
  | case2 c rest q cur i acc => simp at h
  | case3 fuel rest q cur i acc ih =>
      rw [scanLineFuel, scanLine]
      exact ih (by simp at h ⊢; omega)
  | case4 fuel rest cur i acc ih =>
      rw [scanLineFuel, scanLine]
      exact ih (by simp at h ⊢; omega)
  | case5 fuel rest q cur i acc hg ih =>
      rw [scanLineFuel.eq_5 target q cur i acc fuel rest hg,
        scanLine.eq_4 target q cur i acc rest hg]
      exact ih (by simp at h ⊢; omega)
  | case6 fuel rest cur i acc ih =>
      rw [scanLineFuel, scanLine]
      exact ih (by simp at h ⊢; omega)
  | case7 fuel c rest q cur i acc h1 h2 h3 h4 ih =>
      rw [scanLineFuel.eq_7 target q cur i acc fuel c rest h1 h3 h2 h4,
        scanLine.eq_6 target q cur i acc c rest h1 h3 h2 h4]
      exact ih (by simp at h ⊢; omega)

/-- Witness for C10 at a concrete line, state and fuel. -/
theorem scan_total_witness :
    scanLineFuel 1 9 ("1,\"0xA\"".data) false [] 0 []
      = some (scanLine 1 ("1,\"0xA\"".data) false [] 0 []) :=
  scan_total 1 9 ("1,\"0xA\"".data) false [] 0 [] (by decide)

theorem buildChunks_sound (l : List String) :
    (∀ c ∈ buildChunks l, c.length ≤ chunkSize) ∧
      (buildChunks l).flatten = l := by
  induction l using buildChunks.induct with
  | case1 => simp [buildChunks]
  | case2 l h ih =>
      rw [buildChunks, if_neg h]
      constructor
      · intro c hc
        rcases List.mem_cons.mp hc with rfl | hc
        · rw [List.length_take]
          omega
        · exact ih.1 c hc
      · rw [List.flatten_cons, ih.2, List.take_append_drop]

theorem buildChunks_one (l : List String) (h0 : l ≠ [])
    (h : l.length ≤ chunkSize) : buildChunks l = [l] := by
  rw [buildChunks, if_neg h0, List.take_of_length_le h,
    List.drop_eq_nil_of_le h, buildChunks, if_pos rfl]

theorem buildChunks_two (l : List String) (h1 : chunkSize < l.length)
    (h2 : l.length ≤ 2 * chunkSize) :
    buildChunks l = [l.take chunkSize, l.drop chunkSize] := by
  have h0 : l ≠ [] := by
    intro hn
    rw [hn] at h1
    simp at h1
  rw [buildChunks, if_neg h0,
    buildChunks_one (l.drop chunkSize)
      (by
        intro hn
        have := congrArg List.length hn
        simp at this
        omega)
      (by
        rw [List.length_drop]
        omega)]

/-- C3: for every deduplicated address sequence, the chunking of
`processTokens` splits it into chunks of at most 39,000 entries whose
in-order concatenation reconstructs the sequence, and a chunk file name
gets a numeric `_1`, `_2`, ... suffix only when more than one chunk
exists; in particular a sequence of exactly 39,000 entries gives one
chunk written under the unchanged user file name, and one of 39,001
entries gives two chunks suffixed `_1` and `_2`. -/
theorem dedup_chunking :
    (∀ l : List String,
      (∀ c ∈ buildChunks l, c.length ≤ 39000) ∧ (buildChunks l).flatten = l) ∧
    (∀ (name : String) (numChunks i : Nat), numChunks ≤ 1 →
      chunkFileName name numChunks i = name) ∧
    (∀ l : List String, l.length = 39000 →
      buildChunks l = [l] ∧
      chunkFileName "out.txt" (buildChunks l).length 0 = "out.txt") ∧
    (∀ l : List String, l.length = 39001 →
      buildChunks l = [l.take 39000, l.drop 39000] ∧
      chunkFileName "out.txt" (buildChunks l).length 0 = "out_1.txt" ∧
      chunkFileName "out.txt" (buildChunks l).length 1 = "out_2.txt") := by
  refine ⟨buildChunks_sound, ?_, ?_, ?_⟩
  · intro name numChunks i h
    have : ¬ numChunks > 1 := by omega
    simp [chunkFileName, this]
  · intro l h
    have h1 : buildChunks l = [l] := by
      apply buildChunks_one
      · intro hn
        rw [hn] at h
        simp at h
      · have hcs : chunkSize = 39000 := rfl
        omega
    refine ⟨h1, ?_⟩
    rw [h1]
    rfl
  · intro l h
    have h1 : buildChunks l = [l.take 39000, l.drop 39000] := by
      have := buildChunks_two l (by rw [h]; decide) (by rw [h]; decide)
      simpa [chunkSize] using this
    refine ⟨h1, ?_, ?_⟩ <;> rw [h1] <;> rfl

/-- Witness for C3 at concrete sequences of lengths 39,000 and 39,001. -/
theorem dedup_chunking_witness :
    buildChunks (List.replicate 39000 "0xA") = [List.replicate 39000 "0xA"] ∧
    chunkFileName "out.txt"
        (buildChunks (List.replicate 39001 "0xA")).length 0 = "out_1.txt" :=
  ⟨(dedup_chunking.2.2.1 _ (by rw [List.length_replicate])).1,
    (dedup_chunking.2.2.2 _ (by rw [List.length_replicate])).2.1⟩

theorem dedup_foldl_len (xs : List String) (s : DedupState) :
    (xs.foldl dedupStep s).all.length + (xs.foldl dedupStep s).dups
      = s.all.length + s.dups + xs.length := by
  induction xs generalizing s with
  | nil => simp
  | cons x xs ih =>
      simp only [List.foldl_cons, List.length_cons]
      rw [ih]
      by_cases hc : s.seen.contains x
      · simp only [dedupStep, hc, if_pos]
        omega
      · simp only [dedupStep, hc, if_neg, Bool.false_eq_true,
          not_false_iff, List.length_append, List.length_cons]
        simp
        omega

theorem foldl_inner_eq_flatten (files : List (List String))
    (s : DedupState) :
    files.foldl (fun s addresses => addresses.foldl dedupStep s) s
      = files.flatten.foldl dedupStep s := by
  induction files generalizing s with
  | nil => rfl
  | cons f fs ih =>
      simp only [List.foldl_cons, List.flatten_cons, List.foldl_append]
      exact ih _

/-- C4: for every multi-file dedup run, the length of the deduplicated
output plus the duplicate counter equals the total number of values
encountered across all input files. -/
theorem dedup_length_invariant (files : List (List String)) :
    (processAll files).all.length + (processAll files).dups
      = (files.map List.length).sum := by
  unfold processAll
  rw [foldl_inner_eq_flatten, dedup_foldl_len]
  simp [initDedupState, List.length_flatten]

theorem dedup_foldl_all (xs : List String) (s : DedupState) :
    (xs.foldl dedupStep s).all = s.all ++ firstSeen xs s.seen := by
  induction xs generalizing s with
  | nil => simp [firstSeen]
  | cons x xs ih =>
      simp only [List.foldl_cons, firstSeen]
      by_cases hc : s.seen.contains x
      · simp only [dedupStep, hc, if_pos]
        rw [ih]
      · simp only [dedupStep, hc, if_neg, Bool.false_eq_true, not_false_iff]
        rw [ih]
        simp

/-- C5: in the dedup pipeline, the first occurrence of each value is kept
in first-seen order and every later repeat (within or across files) is
dropped; in particular two files sharing `0x111`, file A also holding
`0x222` and file B also holding `0x333`, yield the output
`["0x111", "0x222", "0x333"]` with duplicate count 1. -/
theorem dedup_first_seen :
    (∀ files : List (List String),
      (processAll files).all = firstSeen files.flatten []) ∧
    (processAll [["0x111", "0x222"], ["0x111", "0x333"]]).all
        = ["0x111", "0x222", "0x333"] ∧
    (processAll [["0x111", "0x222"], ["0x111", "0x333"]]).dups = 1 := by
  refine ⟨?_, by decide, by decide⟩
  intro files
  unfold processAll
  rw [foldl_inner_eq_flatten, dedup_foldl_all]
  rfl

theorem mergeStep_of_ne_nil (md : List String) (f : String)
    (h : md ≠ []) : mergeStep md f = md ++ dataLines f := by
  unfold mergeStep dataLines
  have : ¬ md.length = 0 := by
    simpa [List.length_eq_zero] using h
  simp [this]

theorem merge_foldl_data (fs : List String) (md : List String)
    (h : md ≠ []) : fs.foldl mergeStep md = md ++ fs.flatMap dataLines := by
  induction fs generalizing md with
  | nil => simp
  | cons f fs ih =>
      simp only [List.foldl_cons, List.flatMap_cons]
      rw [mergeStep_of_ne_nil md f h, ih _ (by simp [h]), List.append_assoc]

theorem mergeStep_nil_head (f : String)
    (h : jsTrim ((splitOnChar '\n' f).headD "") ≠ "") :
    mergeStep [] f
      = jsTrim ((splitOnChar '\n' f).headD "") :: dataLines f := by
  unfold mergeStep dataLines
  rcases hl : splitOnChar '\n' f with _ | ⟨l0, t⟩
  · rw [hl] at h
    simp [jsTrim] at h
  · rw [hl] at h
    simp only [List.headD_cons] at h
    simp [List.filterMap_cons, keepLine, h]

/-- C6 counterexample: for the single input file whose content starts with
a newline (so its header line is empty), the merged output has strictly
fewer lines than one plus the number of non-empty data lines: the loop
starts at line 0 only while nothing has been accumulated, and the empty
header line is trimmed away rather than kept, so no separate header line
exists in the output. -/
theorem merge_line_count_cex :
    (mergeCSV ["\na,b"]).length
      ≠ 1 + (["\na,b"].map (fun f => (dataLines f).length)).sum := by
  decide

/-- C6 (amended): for every merge run over a non-empty list of input files
in which the first file's first line is non-empty after trimming, the
merged output's line count is 1 (the header) plus the sum of the
non-empty data-line counts across all input files. -/
theorem merge_line_count (f0 : String) (rest : List String)
    (h : jsTrim ((splitOnChar '\n' f0).headD "") ≠ "") :
    (mergeCSV (f0 :: rest)).length
      = 1 + (dataLines f0).length
          + (rest.map (fun f => (dataLines f).length)).sum := by
  unfold mergeCSV
  simp only [List.foldl_cons]
  rw [mergeStep_nil_head f0 h, merge_foldl_data rest _ (by simp)]
  rw [List.length_append, List.length_cons, List.length_flatMap]
  have hc : (List.map (List.length ∘ dataLines) rest).sum
      = (rest.map (fun f => (dataLines f).length)).sum := rfl
  omega

/-- Witness for C6 at two concrete well-formed files. -/
theorem merge_line_count_witness :
    (mergeCSV ["h1,h2\na,b", "h1,h2\nc,d"]).length
      = 1 + (dataLines "h1,h2\na,b").length
          + (["h1,h2\nc,d"].map (fun f => (dataLines f).length)).sum :=
  merge_line_count "h1,h2\na,b" ["h1,h2\nc,d"] (by decide)

/-- C7 counterexample: the output's header line is the trimmed, not the
verbatim, first line of the first file (input `"h1,h2 \na,b"` with a
trailing blank in the header), and a file processed while the accumulated
output is still empty contributes its own header line: with the first
file completely empty, the second file's header `"h"` appears in the
output, though the claim says subsequent files contribute only data lines
of index at least 1. -/
theorem merge_header_cex :
    (mergeCSV ["h1,h2 \na,b"]).head? ≠ some "h1,h2 " ∧
    "h" ∈ mergeCSV ["", "h\nc,d"] := by
  decide

/-- C7 (amended): for every merge run whose first file has a first line
that is non-empty after trimming, the output is the first file's kept
lines (its lines from index 0, each trimmed, empties dropped — so the
output's header line is the trimmed first line of the first file)
followed by, for each subsequent file in order, only that file's data
lines (index at least 1, trimmed, empties dropped), its header line
excluded. -/
theorem merge_header_provenance (f0 : String) (rest : List String)
    (h : jsTrim ((splitOnChar '\n' f0).headD "") ≠ "") :
    mergeCSV (f0 :: rest)
      = ((splitOnChar '\n' f0).filterMap keepLine)
          ++ rest.flatMap dataLines ∧
    (mergeCSV (f0 :: rest)).head?
      = some (jsTrim ((splitOnChar '\n' f0).headD "")) := by
  have hstep : mergeStep [] f0
      = jsTrim ((splitOnChar '\n' f0).headD "") :: dataLines f0 :=
    mergeStep_nil_head f0 h
  have hrun : mergeCSV (f0 :: rest)
      = mergeStep [] f0 ++ rest.flatMap dataLines := by
    unfold mergeCSV
    simp only [List.foldl_cons]
    rw [merge_foldl_data rest _ (by rw [hstep]; simp)]
  constructor
  · rw [hrun]
    unfold mergeStep dataLines
    simp
  · rw [hrun, hstep]
    rfl

/-- Witness for C7 at two concrete well-formed files. -/
theorem merge_header_provenance_witness :
    mergeCSV ["h1,h2\na,b", "h1,h2\nc,d"]
      = ((splitOnChar '\n' "h1,h2\na,b").filterMap keepLine)
          ++ (["h1,h2\nc,d"]).flatMap dataLines ∧
    (mergeCSV ["h1,h2\na,b", "h1,h2\nc,d"]).head?
      = some (jsTrim ((splitOnChar '\n' "h1,h2\na,b").headD "")) :=
  merge_header_provenance "h1,h2\na,b" ["h1,h2\nc,d"] (by decide)

theorem runDedupFrom_error (pre : List (Except String (List String)))
    (e : String) (post : List (Except String (List String)))
    (s : DedupState) :
    runDedupFrom (pre ++ Except.error e :: post) s = none := by
  induction pre generalizing s with
  | nil => rfl
  | cons p pre ih =>
      rcases p with e' | addresses
      · rfl
      · simp only [List.cons_append, runDedupFrom]
        exact ih _

/-- C8: per-file error handling differs between the two multi-file
pipelines: in the dedup pipeline, a single file whose extraction fails
aborts the entire run before the write phase (nothing written), wherever
it occurs; in the merge pipeline, a single file whose read fails is
skipped and the run produces exactly what it would have produced without
that file. -/
theorem per_file_error_handling :
    (∀ (pre post : List (Except String (List String))) (e : String),
      runDedup (pre ++ Except.error e :: post) = none) ∧
    (∀ (pre post : List (Except String String)) (e : String),
      runMerge (pre ++ Except.error e :: post) = runMerge (pre ++ post)) := by
  constructor
  · intro pre post e
    exact runDedupFrom_error pre e post _
  · intro pre post e
    unfold runMerge
    rw [List.foldl_append, List.foldl_append, List.foldl_cons]
    rfl

/-- C9: a `processWallets` run never deletes its input CSV: its mutating
filesystem operations consist of at most the single write of the
user-named output file, for every input configuration. -/
theorem processWallets_frame (csvExists : Bool) (data fileName : String) :
    (processWalletsOps csvExists data fileName).all FSOp.isWrite = true ∧
    (processWalletsOps csvExists data fileName).length ≤ 1 := by
  unfold processWalletsOps
  split
  · simp
  · split
    · simp
    · split
      · simp
      · simp [FSOp.isWrite]

end Cleaner
